import Mathlib

/-!
Shallow embedding of the Gaussian-fitting core of OrganoidTracker.

Sources embedded here:
* `src/particle_detection/gaussian_fit.py` — the `Gaussian` value class with
  `draw`, `translated`, `scaled`, `to_list`, the `_3d_gauss` closed form, and
  `perform_gaussian_mixture_fit` / `perform_gaussian_mixture_fit_lowres`;
* `src/autotrack/particle_detection/gaussian_fit.py` — `_ModelAndImageDifference`
  (`difference_with_image`, `gradient`, `_draw_gaussians_to_scratch_image` with
  its per-blob render cache), `perform_gaussian_mixture_fit` and
  `perform_gaussian_mixture_fit_from_watershed`.

Modelling conventions: Python floats are embedded as exact numbers — blob
parameters as rationals (machine floats are rationals), image intensities as
real numbers (the closed form uses `Real.exp`).  A 3-d `zyx`-indexed ndarray
is a total function `ℤ → ℤ → ℤ → ℝ` together with a `Shape`; slice-assignment
becomes a pointwise conditional update.  Python's `int()` truncation toward
zero is `pytrunc`.  `numpy.linalg.inv` on the symmetric 3×3 covariance matrix
is the explicit adjugate-over-determinant inverse.  Fallible code
(`Gaussian(*params)` with a wrong-sized slice, `ValueError` from a failed
minimization) returns `Except String`.
-/

namespace GaussianFit

/-- Shape of a zyx-indexed 3-d image: `image.shape = (nz, ny, nx)`. -/
structure Shape where
  nz : ℕ
  ny : ℕ
  nx : ℕ
deriving DecidableEq, Repr

/-- A 3-d image as a total function from integer voxel coordinates (z, y, x)
to a real intensity; out-of-shape coordinates are carried along but never
touched by any drawing code. -/
def Image : Type := ℤ → ℤ → ℤ → ℝ

/-- The all-zero image (`numpy.zeros` / a buffer after `fill(0)`). -/
def zeroImage : Image := fun _ _ _ => 0

/-- `Gaussian` from `src/particle_detection/gaussian_fit.py`: amplitude, mean
and the six entries of the symmetric covariance matrix, the exact ten
`__init__` fields in source order. -/
structure Gaussian where
  a : ℚ
  mu_x : ℚ
  mu_y : ℚ
  mu_z : ℚ
  cov_xx : ℚ
  cov_yy : ℚ
  cov_zz : ℚ
  cov_xy : ℚ
  cov_xz : ℚ
  cov_yz : ℚ
deriving DecidableEq, Repr

/-- `Gaussian.to_list`: the canonical ten-element parameter flattening. -/
def Gaussian.to_list (g : Gaussian) : List ℚ :=
  [g.a, g.mu_x, g.mu_y, g.mu_z, g.cov_xx, g.cov_yy, g.cov_zz, g.cov_xy,
   g.cov_xz, g.cov_yz]

/-- `Gaussian(*params)` applied to a parameter slice: succeeds only on exactly
ten elements, otherwise Python raises a `TypeError` (wrong argument count),
embedded as `Except.error`. -/
def Gaussian.ofList : List ℚ → Except String Gaussian
  | [a, mx, my, mz, cxx, cyy, czz, cxy, cxz, cyz] =>
      .ok ⟨a, mx, my, mz, cxx, cyy, czz, cxy, cxz, cyz⟩
  | _ => .error "Gaussian() takes exactly 10 parameters"

/-- `Gaussian.translated(dx, dy, dz)`: a fresh blob with the mean shifted. -/
def Gaussian.translated (g : Gaussian) (dx dy dz : ℚ) : Gaussian :=
  { g with mu_x := g.mu_x + dx, mu_y := g.mu_y + dy, mu_z := g.mu_z + dz }

/-- `Gaussian.scaled(scale)`: a fresh blob with the mean multiplied by the
scale; the covariance entries are (intentionally, per the source's `Todo`
comment) left untouched. -/
def Gaussian.scaled (g : Gaussian) (scale : ℚ) : Gaussian :=
  { g with mu_x := g.mu_x * scale, mu_y := g.mu_y * scale,
           mu_z := g.mu_z * scale }

/-- Python `int()` applied to a real number: truncation toward zero. -/
def pytrunc (q : ℚ) : ℤ := if 0 ≤ q then ⌊q⌋ else -⌊-q⌋

/-- Determinant of the symmetric covariance matrix built from the six entries
(as `numpy.linalg.inv` computes it, expanded along the first row). -/
def covDet {K : Type*} [Field K] (cxx cyy czz cxy cxz cyz : K) : K :=
  cxx * (cyy * czz - cyz * cyz) - cxy * (cxy * czz - cyz * cxz)
    + cxz * (cxy * cyz - cyy * cxz)

/-- The quadratic form `dᵀ Σ⁻¹ d` of `_3d_gauss`, with `Σ⁻¹` the explicit
adjugate-over-determinant inverse of the symmetric covariance matrix. -/
def covQuad {K : Type*} [Field K] (cxx cyy czz cxy cxz cyz dx dy dz : K) : K :=
  let det := covDet cxx cyy czz cxy cxz cyz
  let i11 := (cyy * czz - cyz * cyz) / det
  let i12 := (cxz * cyz - cxy * czz) / det
  let i13 := (cxy * cyz - cxz * cyy) / det
  let i22 := (cxx * czz - cxz * cxz) / det
  let i23 := (cxy * cxz - cxx * cyz) / det
  let i33 := (cxx * cyy - cxy * cxy) / det
  dx * (i11 * dx + i12 * dy + i13 * dz)
    + dy * (i12 * dx + i22 * dy + i23 * dz)
    + dz * (i13 * dx + i23 * dy + i33 * dz)

/-- `_3d_gauss(pos, a, mu_x, …)` at one position `(px, py, pz)`:
`a · exp(−½ (p−μ)ᵀ Σ⁻¹ (p−μ))`. -/
noncomputable def gauss3d (a mux muy muz cxx cyy czz cxy cxz cyz px py pz : ℚ) : ℝ :=
  (a : ℝ) * Real.exp (((-1 : ℝ) / 2) *
    ((covQuad cxx cyy czz cxy cxz cyz (px - mux) (py - muy) (pz - muz) : ℚ) : ℝ))

/-- The closed-form intensity of a blob at a global voxel, the value the spec
writes `a·exp(−½(x−μ)ᵀΣ⁻¹(x−μ))`. -/
noncomputable def gaussVal (g : Gaussian) (z y x : ℤ) : ℝ :=
  gauss3d g.a g.mu_x g.mu_y g.mu_z g.cov_xx g.cov_yy g.cov_zz g.cov_xy
    g.cov_xz g.cov_yz (x : ℚ) (y : ℚ) (z : ℚ)

/-- `offset_x = max(0, int(mu_x - 3 * cov_xx))` of `Gaussian.draw`. -/
def offX (g : Gaussian) : ℤ := max 0 (pytrunc (g.mu_x - 3 * g.cov_xx))

/-- `offset_y = max(0, int(mu_y - 3 * cov_yy))` of `Gaussian.draw`. -/
def offY (g : Gaussian) : ℤ := max 0 (pytrunc (g.mu_y - 3 * g.cov_yy))

/-- `offset_z = max(0, int(mu_z - 3 * cov_zz))` of `Gaussian.draw`. -/
def offZ (g : Gaussian) : ℤ := max 0 (pytrunc (g.mu_z - 3 * g.cov_zz))

/-- `max_x = min(image.shape[2], int(mu_x + 3 * cov_xx))` of `Gaussian.draw`. -/
def maxX (g : Gaussian) (sh : Shape) : ℤ :=
  min (sh.nx : ℤ) (pytrunc (g.mu_x + 3 * g.cov_xx))

/-- `max_y = min(image.shape[1], int(mu_y + 3 * cov_yy))` of `Gaussian.draw`. -/
def maxY (g : Gaussian) (sh : Shape) : ℤ :=
  min (sh.ny : ℤ) (pytrunc (g.mu_y + 3 * g.cov_yy))

/-- `max_z = min(image.shape[0], int(mu_z + 3 * cov_zz))` of `Gaussian.draw`. -/
def maxZ (g : Gaussian) (sh : Shape) : ℤ :=
  min (sh.nz : ℤ) (pytrunc (g.mu_z + 3 * g.cov_zz))

/-- Membership in the truncation window of `Gaussian.draw`: the slice
`image[offset_z:max_z, offset_y:max_y, offset_x:max_x]`. -/
def insideWindow (g : Gaussian) (sh : Shape) (z y x : ℤ) : Prop :=
  offZ g ≤ z ∧ z < maxZ g sh ∧ offY g ≤ y ∧ y < maxY g sh ∧
    offX g ≤ x ∧ x < maxX g sh

instance (g : Gaussian) (sh : Shape) (z y x : ℤ) :
    Decidable (insideWindow g sh z y x) := by
  unfold insideWindow
  exact inferInstance

/-- `Gaussian.draw(image)` from `src/particle_detection/gaussian_fit.py`:
inside the clipped truncation window the Gaussian is evaluated at
window-relative coordinates with a window-relative mean (exactly the
`_3d_gauss(pos, a, mu_x - offset_x, …)` call on the meshgrid positions) and
added onto the slice; outside, the image is untouched. -/
noncomputable def Gaussian.draw (g : Gaussian) (sh : Shape) (image : Image) : Image :=
  fun z y x =>
    if insideWindow g sh z y x then
      image z y x +
        gauss3d g.a (g.mu_x - (offX g : ℚ)) (g.mu_y - (offY g : ℚ))
          (g.mu_z - (offZ g : ℚ)) g.cov_xx g.cov_yy g.cov_zz g.cov_xy
          g.cov_xz g.cov_yz
          ((x - offX g : ℤ) : ℚ) ((y - offY g : ℤ) : ℚ) ((z - offZ g : ℤ) : ℚ)
    else image z y x

/-- Shifting an image by an integer offset: the shifted image holds at
`(z, y, x)` what the original held at `(z−dz, y−dy, x−dx)`. -/
def shiftImage (dx dy dz : ℤ) (img : Image) : Image :=
  fun z y x => img (z - dz) (y - dy) (x - dx)

/-- The rendered contribution of one blob: exactly what `Gaussian.draw` adds
to a zeroed image (the truncated, clipped Gaussian window). -/
noncomputable def renderOf (g : Gaussian) (sh : Shape) : Image :=
  g.draw sh zeroImage

/-- The pointwise sum of the rendered contributions of a list of blobs: the
contents of the model-sum scratch buffer after zeroing and drawing them all. -/
noncomputable def modelSum (sh : Shape) (gs : List Gaussian) : Image :=
  fun z y x => (gs.map (fun g => renderOf g sh z y x)).sum

/-- `self._last_gaussians.get(gaussian)`: lookup in the per-blob render cache,
keyed by the exact ten-parameter tuple. -/
def lookupRender : List (Gaussian × Image) → Gaussian → Option Image
  | [], _ => none
  | e :: rest, g => if e.1 = g then some e.2 else lookupRender rest g

/-- Modelled from the spec: `Gaussian.draw(image, cached_image)` of the module
`autotrack/core/gaussian.py`, which is not part of the sources at hand — per
the spec it rasterizes the truncated Gaussian additively into `image`, reusing
the optional previously rendered sub-array (valid for identical parameters)
instead of re-rendering, and returns the render used so the caller can cache
it. -/
noncomputable def drawCached (g : Gaussian) (sh : Shape) (image : Image)
    (cached : Option Image) : Image × Image :=
  let r := cached.getD (renderOf g sh)
  (fun z y x => image z y x + r z y x, r)

/-- The slicing loop `for i in range(0, len(params), 10): Gaussian(*params[i:i+10])`:
splits a flat parameter vector into blobs of ten consecutive parameters;
a leftover slice of fewer than ten parameters makes the `Gaussian` call raise. -/
def chunks10 : List ℚ → Except String (List Gaussian)
  | [] => .ok []
  | p :: rest => do
      let g ← Gaussian.ofList ((p :: rest).take 10)
      let gs ← chunks10 ((p :: rest).drop 10)
      .ok (g :: gs)
termination_by l => l.length
decreasing_by simp [List.length_drop]; omega

/-- The drawing loop of `_draw_gaussians_to_scratch_image`: draws each blob in
turn (looking its render up in the previous call's cache), and collects the
new cache `last_gaussians_new` in loop order. -/
noncomputable def drawGaussians (sh : Shape) (cache : List (Gaussian × Image)) :
    List Gaussian → Image → Image × List (Gaussian × Image)
  | [], image => (image, [])
  | g :: gs, image =>
      let step := drawCached g sh image (lookupRender cache g)
      let rest := drawGaussians sh cache gs step.1
      (rest.1, (g, step.2) :: rest.2)

/-- `_ModelAndImageDifference`: the float copy of the data image (with its
shape) and the per-blob render cache `_last_gaussians`.  The two scratch
buffers of the source are pure performance devices and appear here as the
freshly recomputed images inside each call. -/
structure ModelAndImageDifference where
  sh : Shape
  data : Image
  lastGaussians : List (Gaussian × Image)

/-- `_ModelAndImageDifference.__init__`: stores the float copy of the data
image and an empty render cache. -/
def initModel (sh : Shape) (data : Image) : ModelAndImageDifference :=
  ⟨sh, data, []⟩

/-- Sum of an image over all voxels of a shape (`ndarray.sum()`). -/
noncomputable def sumVoxels (sh : Shape) (f : Image) : ℝ :=
  ∑ z ∈ Finset.range sh.nz, ∑ y ∈ Finset.range sh.ny, ∑ x ∈ Finset.range sh.nx,
    f (z : ℤ) (y : ℤ) (x : ℤ)

/-- `difference_with_image(params)`: draws all blobs of `params` into a zeroed
scratch buffer through the render cache, subtracts the data image, squares
element-wise and returns the total, together with the updated model state
(the refreshed cache). -/
noncomputable def difference_with_image (s : ModelAndImageDifference)
    (params : List ℚ) : Except String (ℝ × ModelAndImageDifference) := do
  let gs ← chunks10 params
  let drawn := drawGaussians s.sh s.lastGaussians gs zeroImage
  .ok (sumVoxels s.sh (fun z y x => (drawn.1 z y x - s.data z y x) ^ 2),
       { s with lastGaussians := drawn.2 })

/-- The ten parameters of a blob as a real vector in `to_list` order, the
variable point at which `draw_gradient` differentiates. -/
def paramVec (g : Gaussian) : Fin 10 → ℝ := fun k => ((g.to_list.getD k 0 : ℚ) : ℝ)

/-- The closed-form blob intensity as a real function of the ten-parameter
vector, used to state what a partial-derivative render is. -/
noncomputable def gaussValR (p : Fin 10 → ℝ) (z y x : ℤ) : ℝ :=
  p 0 * Real.exp (((-1 : ℝ) / 2) *
    covQuad (p 4) (p 5) (p 6) (p 7) (p 8) (p 9)
      ((x : ℝ) - p 1) ((y : ℝ) - p 2) ((z : ℝ) - p 3))

/-- Modelled from the spec: `Gaussian.draw_gradient(image, gradient_nr)` of the
module `autotrack/core/gaussian.py`, which is not part of the sources at hand —
per the spec it renders the partial derivative of the blob's intensity function
with respect to its `k`-th parameter, inside the blob's truncation window and
zero elsewhere. -/
noncomputable def gradRender (g : Gaussian) (sh : Shape) (k : Fin 10) : Image :=
  fun z y x =>
    if insideWindow g sh z y x then
      deriv (fun t : ℝ => gaussValR (Function.update (paramVec g) k t) z y x)
        (paramVec g k)
    else 0

/-- `gradient(params)`: redraws the model sum through the cache, forms
`2·(model − data)`, and for every blob and every one of its ten parameters
sums the element-wise product of that blob's parameter-derivative render with
it, in `params` order; the state carries the refreshed cache. -/
noncomputable def gradient (s : ModelAndImageDifference) (params : List ℚ) :
    Except String (List ℝ × ModelAndImageDifference) := do
  let gs ← chunks10 params
  let drawn := drawGaussians s.sh s.lastGaussians gs zeroImage
  let r : Image := fun z y x => 2 * (drawn.1 z y x - s.data z y x)
  .ok (gs.flatMap (fun g => (List.finRange 10).map (fun k =>
        sumVoxels s.sh (fun z y x => gradRender g s.sh k z y x * r z y x))),
       { s with lastGaussians := drawn.2 })

/-- The render-cache coherence invariant of the spec: every cache entry maps a
parameter tuple to exactly the render of that tuple. -/
def GoodCache (sh : Shape) (cache : List (Gaussian × Image)) : Prop :=
  ∀ e ∈ cache, e.2 = renderOf e.1 sh

/-- One evaluation issued against a `_ModelAndImageDifference` instance during
a minimizer run: an objective call or a gradient call. -/
inductive Call where
  | diff (params : List ℚ)
  | grad (params : List ℚ)

/-- Replays a history of calls against a model instance, threading the
render-cache state from call to call; a call that raises leaves the state as
it was at the moment of the raise. -/
noncomputable def runCalls : ModelAndImageDifference → List Call →
    ModelAndImageDifference
  | s, [] => s
  | s, .diff ps :: rest =>
      match difference_with_image s ps with
      | .ok r => runCalls r.2 rest
      | .error _ => runCalls s rest
  | s, .grad ps :: rest =>
      match gradient s ps with
      | .ok r => runCalls r.2 rest
      | .error _ => runCalls s rest

/-- The cache-free mathematical value of the objective: the sum of squared
residuals of the freshly rendered model sum against the data image. -/
noncomputable def pureDifference (sh : Shape) (data : Image) (params : List ℚ) :
    Except String ℝ :=
  (chunks10 params).map (fun gs =>
    sumVoxels sh (fun z y x => (modelSum sh gs z y x - data z y x) ^ 2))

/-- What `scipy.optimize.minimize` hands back: a success flag, the fitted
parameter vector `x` and a message. -/
structure MinimizeResult where
  success : Bool
  x : List ℚ
  message : String

/-- The pluggable minimizer collaborator (`scipy.optimize.minimize`, external
to this repository): objective and initial parameters in, result out. -/
def Minimizer : Type :=
  (List ℚ → Except String ℝ) → List ℚ → MinimizeResult

/-- The objective handed to the minimizer: the `difference_with_image` bound
method of a fresh `_ModelAndImageDifference(original_image)`.  The purity
theorems below show the render cache never changes the returned value, so the
stateful bound method is embedded as this pure function of `params`. -/
noncomputable def objectiveOf (sh : Shape) (image : Image) :
    List ℚ → Except String ℝ :=
  fun params => (difference_with_image (initModel sh image) params).map Prod.fst

/-- `perform_gaussian_mixture_fit` from
`src/autotrack/particle_detection/gaussian_fit.py`: flattens the guesses,
runs the minimizer on the residual objective, raises
`ValueError("Minimization failed: " + message)` on non-success, and otherwise
splits the result vector back into blobs of ten consecutive parameters. -/
noncomputable def perform_gaussian_mixture_fit (minimize : Minimizer) (sh : Shape)
    (original_image : Image) (guesses : List Gaussian) :
    Except String (List Gaussian) :=
  let guesses_list := guesses.flatMap Gaussian.to_list
  let result := minimize (objectiveOf sh original_image) guesses_list
  if result.success then chunks10 result.x
  else .error ("Minimization failed: " ++ result.message)

/-- A cluster crop as returned by `get_image_for_fit`: the crop origin offsets
and the cropped image with its shape. -/
structure Crop where
  ox : ℤ
  oy : ℤ
  oz : ℤ
  csh : Shape
  cimg : Image

/-- Modelled from the spec: an ellipse-stack cluster as produced by the module
`autotrack/particle_detection/ellipse_cluster.py`, which is not among the
sources at hand.  `name` stands for `str(cluster)`; `tags` for `get_tags()`
(the seed tags of the cluster); `guesses` for `guess_gaussians(image)` (one
initial-guess blob per seed tag, in tag order, in global coordinates); `crop`
for `get_image_for_fit(image, blur_radius)` (`none` when the crop is
absent/degenerate). -/
structure Cluster where
  name : String
  tags : List ℕ
  guesses : List Gaussian
  crop : Option Crop

/-- The crop-local initial guesses of a cluster: the guesses translated by
minus the crop origin offsets. -/
def clusterGuesses (c : Cluster) (cr : Crop) : List Gaussian :=
  c.guesses.map (fun g =>
    g.translated (-(cr.ox : ℚ)) (-(cr.oy : ℚ)) (-(cr.oz : ℚ)))

/-- The minimizer run of one cluster: smoothed cropped image, crop-local
guesses, flattened. -/
noncomputable def clusterMinResult (minimize : Minimizer) (smooth : Image → Image)
    (c : Cluster) (cr : Crop) : MinimizeResult :=
  minimize (objectiveOf cr.csh (smooth cr.cimg))
    ((clusterGuesses c cr).flatMap Gaussian.to_list)

/-- The `perform_gaussian_mixture_fit` call of one cluster, on the smoothed
crop with the crop-local guesses. -/
noncomputable def clusterFit (minimize : Minimizer) (smooth : Image → Image)
    (c : Cluster) (cr : Crop) : Except String (List Gaussian) :=
  perform_gaussian_mixture_fit minimize cr.csh (smooth cr.cimg)
    (clusterGuesses c cr)

/-- The assignment loop `for i, gaussian in enumerate(gaussians):
all_gaussians[tags[i]] = gaussian`: writes each fitted blob into the result
slot of the matching seed tag.  (Python would raise `IndexError` on a tag
index out of range or on more blobs than tags; the theorems below hypothesize
the in-range, equal-length situation the spec's partition invariant
guarantees, on which this total embedding agrees.) -/
def writeSlots : List (Option Gaussian) → List ℕ → List Gaussian →
    List (Option Gaussian)
  | slots, t :: ts, g :: gs => writeSlots (slots.set t (some g)) ts gs
  | slots, _, _ => slots

/-- The per-cluster body of the orchestrator loop: a `none` crop is skipped
silently; a failed fit (`ValueError`) appends
`"Minimization failed for " + str(cluster)` to the log and leaves the slots
alone; a successful fit writes each fitted blob, translated back by the crop
origin offsets, into its seed tag's slot. -/
noncomputable def processCluster (minimize : Minimizer) (smooth : Image → Image)
    (acc : List (Option Gaussian) × List String) (c : Cluster) :
    List (Option Gaussian) × List String :=
  match c.crop with
  | none => acc
  | some cr =>
      match clusterFit minimize smooth c cr with
      | .error _ => (acc.1, acc.2 ++ ["Minimization failed for " ++ c.name])
      | .ok fitted =>
          (writeSlots acc.1 c.tags
            (fitted.map (fun g =>
              g.translated (cr.ox : ℚ) (cr.oy : ℚ) (cr.oz : ℚ))), acc.2)

/-- `perform_gaussian_mixture_fit_from_watershed`: one result slot per ellipse
stack (`[None] * len(ellipse_stacks)`), all clusters processed in order; the
second component collects the failure log lines printed along the way (the
timing print is not modelled: wall-clock time has no shallow embedding). -/
noncomputable def perform_gaussian_mixture_fit_from_watershed
    (minimize : Minimizer) (smooth : Image → Image) (nStacks : ℕ)
    (clusters : List Cluster) : List (Option Gaussian) × List String :=
  clusters.foldl (processCluster minimize smooth) (List.replicate nStacks none, [])

/-- `_get_positions(xsize, ysize, zsize)`: the `[x, y, z]` position rows, in
`zyx_array.ravel()` order. -/
def get_positions (xsize ysize zsize : ℕ) : List (ℕ × ℕ × ℕ) :=
  (List.range zsize).flatMap (fun z =>
    (List.range ysize).flatMap (fun y =>
      (List.range xsize).map (fun x => (x, y, z))))

/-- `_3d_gauss_multiple(pos, *args)` at one position: the summed mixture of
the ten-parameter blobs encoded in `args` (a malformed tail slice, on which
Python would raise, contributes the junk value 0 — this function is only ever
handed opaquely to the external `curve_fit` collaborator). -/
noncomputable def gauss3dMultiple (args : List ℚ) (p : ℕ × ℕ × ℕ) : ℝ :=
  match chunks10 args with
  | .ok gs => (gs.map (fun g =>
      gauss3d g.a g.mu_x g.mu_y g.mu_z g.cov_xx g.cov_yy g.cov_zz g.cov_xy
        g.cov_xz g.cov_yz (p.1 : ℚ) (p.2.1 : ℚ) (p.2.2 : ℚ))).sum
  | .error _ => 0

/-- `original_image.ravel()`: the image flattened in position-list order. -/
noncomputable def image1d (sh : Shape) (img : Image) : List ℝ :=
  (get_positions sh.nx sh.ny sh.nz).map (fun p => img (p.2.2 : ℤ) (p.2.1 : ℤ) (p.1 : ℤ))

/-- The external `scipy.optimize.curve_fit` collaborator of the legacy fitting
variant: model function, position rows, flattened image data and initial
parameters in, fitted coefficient vector out. -/
def CurveFit : Type :=
  (List ℚ → ℕ × ℕ × ℕ → ℝ) → List (ℕ × ℕ × ℕ) → List ℝ → List ℚ → List ℚ

/-- `perform_gaussian_mixture_fit` from `src/particle_detection/gaussian_fit.py`
(the legacy variant): builds the position list, flattens the guesses, runs
`curve_fit` on `_3d_gauss_multiple`, and splits the coefficient vector back
into blobs of ten consecutive parameters. -/
noncomputable def perform_gaussian_mixture_fit_legacy (curveFit : CurveFit)
    (sh : Shape) (original_image : Image) (guesses : List Gaussian) :
    Except String (List Gaussian) :=
  let pos := get_positions sh.nx sh.ny sh.nz
  let parameters := guesses.flatMap Gaussian.to_list
  let coeff := curveFit gauss3dMultiple pos (image1d sh original_image) parameters
  chunks10 coeff

/-- The external `cv2.resize`-based slice-by-slice down-sampler of
`perform_gaussian_mixture_fit_lowres`: original image, its shape and the new
lateral size in, down-sampled image out. -/
def Resize : Type := Image → Shape → ℕ → Image

/-- The truncation window `μ ± 3·(per-axis covariance diagonal)` of a blob
lies entirely inside the image bounds: per axis the truncation radius is
nonnegative and both window endpoints lie within `[0, size]`. -/
def windowInBounds (g : Gaussian) (sh : Shape) : Prop :=
  0 ≤ g.cov_xx ∧ 0 ≤ g.mu_x - 3 * g.cov_xx ∧ g.mu_x + 3 * g.cov_xx ≤ (sh.nx : ℚ) ∧
  0 ≤ g.cov_yy ∧ 0 ≤ g.mu_y - 3 * g.cov_yy ∧ g.mu_y + 3 * g.cov_yy ≤ (sh.ny : ℚ) ∧
  0 ≤ g.cov_zz ∧ 0 ≤ g.mu_z - 3 * g.cov_zz ∧ g.mu_z + 3 * g.cov_zz ≤ (sh.nz : ℚ)

instance (g : Gaussian) (sh : Shape) : Decidable (windowInBounds g sh) := by
  unfold windowInBounds
  exact inferInstance

/-- `perform_gaussian_mixture_fit_lowres`: builds the down-sampled image,
scales every guess by `new_size / old_size` (with `new_size = 64` and
`old_size = original_image.shape[1]`), and calls the legacy fit — on the
ORIGINAL image, exactly as the source does; the down-sampled image is unused. -/
noncomputable def perform_gaussian_mixture_fit_lowres (resize : Resize)
    (curveFit : CurveFit) (sh : Shape) (original_image : Image)
    (guesses : List Gaussian) : Except String (List Gaussian) :=
  let new_size : ℕ := 64
  let old_size : ℕ := sh.ny
  let _new_image := resize original_image sh new_size
  let scaled_guesses := guesses.map (fun g =>
    g.scaled ((new_size : ℚ) / (old_size : ℚ)))
  perform_gaussian_mixture_fit_legacy curveFit sh original_image scaled_guesses

/-- The net effect of one loop iteration of the orchestrator on the result
slots: `none` when the cluster contributes no blobs (absent crop or failed
fit), otherwise the fitted blobs translated back to global coordinates, in
seed-tag order. -/
noncomputable def clusterOutcome (minimize : Minimizer) (smooth : Image → Image)
    (c : Cluster) : Option (List Gaussian) :=
  match c.crop with
  | none => none
  | some cr =>
      match clusterFit minimize smooth c cr with
      | .error _ => none
      | .ok fitted => some (fitted.map (fun g =>
          g.translated (cr.ox : ℚ) (cr.oy : ℚ) (cr.oz : ℚ)))

/-- The log lines one loop iteration of the orchestrator prints: the single
failure line on a raised fit, nothing otherwise (an absent crop is skipped
silently). -/
noncomputable def clusterLog (minimize : Minimizer) (smooth : Image → Image)
    (c : Cluster) : List String :=
  match c.crop with
  | none => []
  | some cr =>
      match clusterFit minimize smooth c cr with
      | .error _ => ["Minimization failed for " ++ c.name]
      | .ok _ => []

/-- The slots component of the orchestrator loop, cluster by cluster. -/
noncomputable def runSlots (minimize : Minimizer) (smooth : Image → Image) :
    List Cluster → List (Option Gaussian) → List (Option Gaussian)
  | [], slots => slots
  | c :: rest, slots =>
      runSlots minimize smooth rest
        (match clusterOutcome minimize smooth c with
         | none => slots
         | some bs => writeSlots slots c.tags bs)

/-- The log component of the orchestrator loop: the per-cluster log lines in
processing order. -/
noncomputable def runLogs (minimize : Minimizer) (smooth : Image → Image)
    (clusters : List Cluster) : List String :=
  clusters.flatMap (clusterLog minimize smooth)

/-- Whether one character list occurs contiguously inside another. -/
def occursIn (needle : List Char) : List Char → Bool
  | [] => needle.isEmpty
  | c :: rest => needle.isPrefixOf (c :: rest) || occursIn needle rest

/-! ## Helper lemmas -/

theorem pytrunc_eq_floor (q : ℚ) (h : 0 ≤ q) : pytrunc q = ⌊q⌋ := by
  simp [pytrunc, h]

theorem gauss3d_shift (a mux muy muz cxx cyy czz cxy cxz cyz px py pz ox oy oz : ℚ) :
    gauss3d a (mux - ox) (muy - oy) (muz - oz) cxx cyy czz cxy cxz cyz
      (px - ox) (py - oy) (pz - oz)
    = gauss3d a mux muy muz cxx cyy czz cxy cxz cyz px py pz := by
  unfold gauss3d
  have h1 : px - ox - (mux - ox) = px - mux := by ring
  have h2 : py - oy - (muy - oy) = py - muy := by ring
  have h3 : pz - oz - (muz - oz) = pz - muz := by ring
  rw [h1, h2, h3]

/-- Characterization of `Gaussian.draw` pointwise: it adds the closed-form
global-coordinate Gaussian inside the window and nothing outside. -/
theorem draw_apply (g : Gaussian) (sh : Shape) (img : Image) (z y x : ℤ) :
    g.draw sh img z y x =
      img z y x + (if insideWindow g sh z y x then gaussVal g z y x else 0) := by
  unfold Gaussian.draw
  by_cases h : insideWindow g sh z y x
  · simp only [h, if_true]
    congr 1
    have hx : ((x - offX g : ℤ) : ℚ) = (x : ℚ) - (offX g : ℚ) := by push_cast; ring
    have hy : ((y - offY g : ℤ) : ℚ) = (y : ℚ) - (offY g : ℚ) := by push_cast; ring
    have hz : ((z - offZ g : ℤ) : ℚ) = (z : ℚ) - (offZ g : ℚ) := by push_cast; ring
    rw [hx, hy, hz, gauss3d_shift]
    rfl
  · simp [h]

@[simp] theorem translated_a (g : Gaussian) (dx dy dz : ℚ) :
    (g.translated dx dy dz).a = g.a := rfl

@[simp] theorem translated_mu_x (g : Gaussian) (dx dy dz : ℚ) :
    (g.translated dx dy dz).mu_x = g.mu_x + dx := rfl

@[simp] theorem translated_mu_y (g : Gaussian) (dx dy dz : ℚ) :
    (g.translated dx dy dz).mu_y = g.mu_y + dy := rfl

@[simp] theorem translated_mu_z (g : Gaussian) (dx dy dz : ℚ) :
    (g.translated dx dy dz).mu_z = g.mu_z + dz := rfl

@[simp] theorem translated_cov_xx (g : Gaussian) (dx dy dz : ℚ) :
    (g.translated dx dy dz).cov_xx = g.cov_xx := rfl

@[simp] theorem translated_cov_yy (g : Gaussian) (dx dy dz : ℚ) :
    (g.translated dx dy dz).cov_yy = g.cov_yy := rfl

@[simp] theorem translated_cov_zz (g : Gaussian) (dx dy dz : ℚ) :
    (g.translated dx dy dz).cov_zz = g.cov_zz := rfl

@[simp] theorem translated_cov_xy (g : Gaussian) (dx dy dz : ℚ) :
    (g.translated dx dy dz).cov_xy = g.cov_xy := rfl

@[simp] theorem translated_cov_xz (g : Gaussian) (dx dy dz : ℚ) :
    (g.translated dx dy dz).cov_xz = g.cov_xz := rfl

@[simp] theorem translated_cov_yz (g : Gaussian) (dx dy dz : ℚ) :
    (g.translated dx dy dz).cov_yz = g.cov_yz := rfl

theorem off_shift (mu c : ℚ) (d : ℤ)
    (h1 : 0 ≤ mu - 3 * c) (h3 : 0 ≤ mu + (d : ℚ) - 3 * c) :
    max 0 (pytrunc (mu + (d : ℚ) - 3 * c)) = max 0 (pytrunc (mu - 3 * c)) + d := by
  rw [pytrunc_eq_floor _ h3, pytrunc_eq_floor _ h1]
  have he : mu + (d : ℚ) - 3 * c = (mu - 3 * c) + ((d : ℤ) : ℚ) := by ring
  rw [he, Int.floor_add_int]
  have g1 : (0 : ℤ) ≤ ⌊mu - 3 * c⌋ := Int.floor_nonneg.mpr h1
  have g2 : (0 : ℤ) ≤ ⌊mu - 3 * c⌋ + d := by
    have hh := Int.floor_nonneg.mpr h3
    rw [he, Int.floor_add_int] at hh
    exact hh
  rw [max_eq_right g1, max_eq_right g2]

theorem max_shift (mu c : ℚ) (n : ℕ) (d : ℤ)
    (hc : 0 ≤ c) (h1 : 0 ≤ mu - 3 * c) (h2 : mu + 3 * c ≤ (n : ℚ))
    (h3 : 0 ≤ mu + (d : ℚ) - 3 * c) (h4 : mu + (d : ℚ) + 3 * c ≤ (n : ℚ)) :
    min (n : ℤ) (pytrunc (mu + (d : ℚ) + 3 * c)) =
      min (n : ℤ) (pytrunc (mu + 3 * c)) + d := by
  have p1 : 0 ≤ mu + 3 * c := by linarith
  have p2 : 0 ≤ mu + (d : ℚ) + 3 * c := by linarith
  rw [pytrunc_eq_floor _ p2, pytrunc_eq_floor _ p1]
  have he : mu + (d : ℚ) + 3 * c = (mu + 3 * c) + ((d : ℤ) : ℚ) := by ring
  rw [he, Int.floor_add_int]
  have q1 : ⌊mu + 3 * c⌋ ≤ (n : ℤ) := by
    have hh := Int.floor_le_floor h2
    simpa using hh
  have q2 : ⌊mu + 3 * c⌋ + d ≤ (n : ℤ) := by
    have hh := Int.floor_le_floor h4
    rw [he, Int.floor_add_int] at hh
    simpa using hh
  rw [min_eq_right q1, min_eq_right q2]

theorem window_shift (g : Gaussian) (sh : Shape) (dx dy dz : ℤ) (z y x : ℤ)
    (h1 : windowInBounds g sh)
    (h2 : windowInBounds (g.translated (dx : ℚ) (dy : ℚ) (dz : ℚ)) sh) :
    insideWindow (g.translated (dx : ℚ) (dy : ℚ) (dz : ℚ)) sh z y x ↔
      insideWindow g sh (z - dz) (y - dy) (x - dx) := by
  obtain ⟨hcx, hx1, hx2, hcy, hy1, hy2, hcz, hz1, hz2⟩ := h1
  obtain ⟨-, hx3, hx4, -, hy3, hy4, -, hz3, hz4⟩ := h2
  simp only [translated_mu_x, translated_mu_y, translated_mu_z,
    translated_cov_xx, translated_cov_yy, translated_cov_zz] at hx3 hx4 hy3 hy4 hz3 hz4
  unfold insideWindow offX offY offZ maxX maxY maxZ
  simp only [translated_mu_x, translated_mu_y, translated_mu_z,
    translated_cov_xx, translated_cov_yy, translated_cov_zz]
  rw [off_shift g.mu_x g.cov_xx dx hx1 hx3,
      off_shift g.mu_y g.cov_yy dy hy1 hy3,
      off_shift g.mu_z g.cov_zz dz hz1 hz3,
      max_shift g.mu_x g.cov_xx sh.nx dx hcx hx1 hx2 hx3 hx4,
      max_shift g.mu_y g.cov_yy sh.ny dy hcy hy1 hy2 hy3 hy4,
      max_shift g.mu_z g.cov_zz sh.nz dz hcz hz1 hz2 hz3 hz4]
  omega

theorem gaussVal_shift (g : Gaussian) (dx dy dz z y x : ℤ) :
    gaussVal (g.translated (dx : ℚ) (dy : ℚ) (dz : ℚ)) z y x =
      gaussVal g (z - dz) (y - dy) (x - dx) := by
  unfold gaussVal
  simp only [translated_a, translated_mu_x, translated_mu_y, translated_mu_z,
    translated_cov_xx, translated_cov_yy, translated_cov_zz,
    translated_cov_xy, translated_cov_xz, translated_cov_yz]
  have hx : ((x - dx : ℤ) : ℚ) = (x : ℚ) - (dx : ℚ) := by push_cast; ring
  have hy : ((y - dy : ℤ) : ℚ) = (y : ℚ) - (dy : ℚ) := by push_cast; ring
  have hz : ((z - dz : ℤ) : ℚ) = (z : ℚ) - (dz : ℚ) := by push_cast; ring
  rw [hx, hy, hz]
  have := gauss3d_shift g.a (g.mu_x + (dx : ℚ)) (g.mu_y + (dy : ℚ))
    (g.mu_z + (dz : ℚ)) g.cov_xx g.cov_yy g.cov_zz g.cov_xy g.cov_xz g.cov_yz
    (x : ℚ) (y : ℚ) (z : ℚ) (dx : ℚ) (dy : ℚ) (dz : ℚ)
  have ex : g.mu_x + (dx : ℚ) - (dx : ℚ) = g.mu_x := by ring
  have ey : g.mu_y + (dy : ℚ) - (dy : ℚ) = g.mu_y := by ring
  have ez : g.mu_z + (dz : ℚ) - (dz : ℚ) = g.mu_z := by ring
  rw [ex, ey, ez] at this
  exact this.symm

/-! ## Claim theorems (with their witnesses) for the blob value type -/

/-- C5: for every Gaussian blob and every target image, `draw` adds the
closed-form Gaussian `a·exp(−½(x−μ)ᵀΣ⁻¹(x−μ))` to the image only inside the
axis-aligned window `μ ± 3·(per-axis covariance diagonal)` clipped to the
image bounds, accumulating additively onto the existing contents there, and
leaves every voxel outside that window unchanged. -/
theorem C5_draw_window_additive (g : Gaussian) (sh : Shape) (img : Image)
    (z y x : ℤ) :
    g.draw sh img z y x =
      img z y x + (if insideWindow g sh z y x then gaussVal g z y x else 0) :=
  draw_apply g sh img z y x

/-- C6: `scaled(s)` returns a new blob whose mean is the scaled mean and whose
amplitude and all six covariance entries are equal to the original's (the
covariance is intentionally left untouched); the receiver is unchanged — the
embedding is a pure value type, `scaled` builds a fresh record. -/
theorem C6_scaled_mean_only (g : Gaussian) (s : ℚ) :
    (g.scaled s).a = g.a ∧
    (g.scaled s).mu_x = s * g.mu_x ∧ (g.scaled s).mu_y = s * g.mu_y ∧
    (g.scaled s).mu_z = s * g.mu_z ∧
    (g.scaled s).cov_xx = g.cov_xx ∧ (g.scaled s).cov_yy = g.cov_yy ∧
    (g.scaled s).cov_zz = g.cov_zz ∧ (g.scaled s).cov_xy = g.cov_xy ∧
    (g.scaled s).cov_xz = g.cov_xz ∧ (g.scaled s).cov_yz = g.cov_yz := by
  refine ⟨rfl, ?_, ?_, ?_, rfl, rfl, rfl, rfl, rfl, rfl⟩ <;>
    simp [Gaussian.scaled, mul_comm]

/-- C10: `perform_gaussian_mixture_fit_lowres` returns exactly the result of
the full-resolution fit on the ORIGINAL image with every guess scaled by
`new_size / old_size = 64 / shape[1]`; the internally built down-sampled image
is never passed to the fit — the result is independent of the down-sampler. -/
theorem C10_lowres_fits_original_image (resize resize2 : Resize)
    (curveFit : CurveFit) (sh : Shape) (img : Image) (guesses : List Gaussian) :
    perform_gaussian_mixture_fit_lowres resize curveFit sh img guesses =
      perform_gaussian_mixture_fit_legacy curveFit sh img
        (guesses.map (fun g => g.scaled ((64 : ℚ) / (sh.ny : ℚ)))) ∧
    perform_gaussian_mixture_fit_lowres resize curveFit sh img guesses =
      perform_gaussian_mixture_fit_lowres resize2 curveFit sh img guesses :=
  ⟨rfl, rfl⟩

/-- C8: translation law — for integer offsets such that both the original and
the translated blob's truncation windows lie entirely inside the image bounds,
rendering the translated blob into a zeroed image equals rendering the blob
into a zeroed image and shifting the result by the offsets (exact equality in
the real-number model, hence within floating-point tolerance). -/
theorem C8_translation_law (g : Gaussian) (sh : Shape) (dx dy dz : ℤ)
    (h1 : windowInBounds g sh)
    (h2 : windowInBounds (g.translated (dx : ℚ) (dy : ℚ) (dz : ℚ)) sh) :
    (g.translated (dx : ℚ) (dy : ℚ) (dz : ℚ)).draw sh zeroImage =
      shiftImage dx dy dz (g.draw sh zeroImage) := by
  funext z y x
  show (g.translated (dx : ℚ) (dy : ℚ) (dz : ℚ)).draw sh zeroImage z y x =
    g.draw sh zeroImage (z - dz) (y - dy) (x - dx)
  rw [draw_apply, draw_apply]
  rw [if_congr (window_shift g sh dx dy dz z y x h1 h2)
    (gaussVal_shift g dx dy dz z y x) rfl]
  rfl

/-- Witness for C8 at a concrete blob, shape and offset. -/
theorem C8_translation_law_witness :
    windowInBounds ⟨1, 5, 5, 5, 1, 1, 1, 0, 0, 0⟩ ⟨12, 12, 12⟩ ∧
    windowInBounds
      ((⟨1, 5, 5, 5, 1, 1, 1, 0, 0, 0⟩ : Gaussian).translated
        ((1 : ℤ) : ℚ) ((2 : ℤ) : ℚ) ((3 : ℤ) : ℚ)) ⟨12, 12, 12⟩ ∧
    (((⟨1, 5, 5, 5, 1, 1, 1, 0, 0, 0⟩ : Gaussian).translated
        ((1 : ℤ) : ℚ) ((2 : ℤ) : ℚ) ((3 : ℤ) : ℚ)).draw ⟨12, 12, 12⟩ zeroImage =
      shiftImage 1 2 3
        ((⟨1, 5, 5, 5, 1, 1, 1, 0, 0, 0⟩ : Gaussian).draw ⟨12, 12, 12⟩ zeroImage)) :=
  ⟨by norm_num [windowInBounds], by norm_num [windowInBounds, Gaussian.translated],
   C8_translation_law ⟨1, 5, 5, 5, 1, 1, 1, 0, 0, 0⟩ ⟨12, 12, 12⟩ 1 2 3
     (by norm_num [windowInBounds])
     (by norm_num [windowInBounds, Gaussian.translated])⟩

/-! ## Render-cache lemmas -/

theorem lookup_good (sh : Shape) (cache : List (Gaussian × Image)) (g : Gaussian)
    (r : Image) (hc : GoodCache sh cache) (h : lookupRender cache g = some r) :
    r = renderOf g sh := by
  induction cache with
  | nil => simp [lookupRender] at h
  | cons e rest ih =>
      unfold lookupRender at h
      by_cases he : e.1 = g
      · rw [if_pos he] at h
        have h2 := hc e (by simp)
        rw [← Option.some_inj.mp h, h2, he]
      · rw [if_neg he] at h
        exact ih (fun e' he' => hc e' (List.mem_cons_of_mem e he')) h

theorem drawGaussians_cons_fst (sh : Shape) (cache : List (Gaussian × Image))
    (g : Gaussian) (gs : List Gaussian) (img : Image) :
    (drawGaussians sh cache (g :: gs) img).1 =
      (drawGaussians sh cache gs
        (drawCached g sh img (lookupRender cache g)).1).1 := rfl

theorem drawGaussians_cons_snd (sh : Shape) (cache : List (Gaussian × Image))
    (g : Gaussian) (gs : List Gaussian) (img : Image) :
    (drawGaussians sh cache (g :: gs) img).2 =
      (g, (drawCached g sh img (lookupRender cache g)).2) ::
        (drawGaussians sh cache gs
          (drawCached g sh img (lookupRender cache g)).1).2 := rfl

theorem modelSum_cons (sh : Shape) (g : Gaussian) (gs : List Gaussian)
    (z y x : ℤ) :
    modelSum sh (g :: gs) z y x = renderOf g sh z y x + modelSum sh gs z y x := by
  simp [modelSum]

theorem drawCached_fst (sh : Shape) (cache : List (Gaussian × Image))
    (g : Gaussian) (img : Image) (hc : GoodCache sh cache) :
    (drawCached g sh img (lookupRender cache g)).1 =
      fun z y x => img z y x + renderOf g sh z y x := by
  unfold drawCached
  cases hl : lookupRender cache g with
  | none => rfl
  | some r =>
      rw [lookup_good sh cache g r hc hl]
      rfl

theorem drawCached_snd (sh : Shape) (cache : List (Gaussian × Image))
    (g : Gaussian) (img : Image) (hc : GoodCache sh cache) :
    (drawCached g sh img (lookupRender cache g)).2 = renderOf g sh := by
  unfold drawCached
  cases hl : lookupRender cache g with
  | none => rfl
  | some r =>
      rw [lookup_good sh cache g r hc hl]
      rfl

/-- The drawing loop with a coherent cache: the resulting buffer is the input
plus the fresh model sum, and the refreshed cache is coherent again — the
cache is invisible in the buffer contents. -/
theorem drawGaussians_spec (sh : Shape) (cache : List (Gaussian × Image))
    (hc : GoodCache sh cache) (gs : List Gaussian) (img : Image) :
    (drawGaussians sh cache gs img).1 =
      (fun z y x => img z y x + modelSum sh gs z y x) ∧
    GoodCache sh (drawGaussians sh cache gs img).2 := by
  induction gs generalizing img with
  | nil =>
      refine ⟨?_, ?_⟩
      · funext z y x
        simp [drawGaussians, modelSum]
      · intro e he
        simp [drawGaussians] at he
  | cons g gs ih =>
      obtain ⟨h1, h2⟩ := ih (drawCached g sh img (lookupRender cache g)).1
      refine ⟨?_, ?_⟩
      · rw [drawGaussians_cons_fst, h1, drawCached_fst sh cache g img hc]
        funext z y x
        rw [modelSum_cons]
        ring
      · rw [drawGaussians_cons_snd]
        intro e he
        rcases List.mem_cons.mp he with h | h
        · rw [h]
          exact drawCached_snd sh cache g img hc
        · exact h2 e h

/-! ## Parameter-slicing lemmas -/

theorem ofList_ok (l : List ℚ) (h : l.length = 10) :
    ∃ g, Gaussian.ofList l = .ok g := by
  rcases l with _ | ⟨a, _ | ⟨b, _ | ⟨c, _ | ⟨d, _ | ⟨e, _ | ⟨f, _ | ⟨g1, _ | ⟨h1,
    _ | ⟨i1, _ | ⟨j1, _ | ⟨k1, t⟩⟩⟩⟩⟩⟩⟩⟩⟩⟩⟩ <;>
    first
      | exact ⟨_, rfl⟩
      | simp at h

theorem ofList_error (l : List ℚ) (h : l.length ≠ 10) :
    ∃ e, Gaussian.ofList l = .error e := by
  rcases l with _ | ⟨a, _ | ⟨b, _ | ⟨c, _ | ⟨d, _ | ⟨e, _ | ⟨f, _ | ⟨g1, _ | ⟨h1,
    _ | ⟨i1, _ | ⟨j1, _ | ⟨k1, t⟩⟩⟩⟩⟩⟩⟩⟩⟩⟩⟩ <;>
    first
      | exact ⟨_, rfl⟩
      | simp at h

theorem chunks10_ok (fuel : ℕ) :
    ∀ (params : List ℚ), params.length ≤ fuel → params.length % 10 = 0 →
      ∃ gs, chunks10 params = .ok gs ∧ 10 * gs.length = params.length := by
  induction fuel with
  | zero =>
      intro params hlen _
      have hemp : params = [] := List.length_eq_zero.mp (Nat.le_zero.mp hlen)
      subst hemp
      exact ⟨[], by simp [chunks10], rfl⟩
  | succ f ih =>
      intro params hlen hmod
      match params with
      | [] => exact ⟨[], by simp [chunks10], rfl⟩
      | p :: rest =>
          simp only [List.length_cons] at hlen hmod
          have hge : 10 ≤ rest.length + 1 := by omega
          have ht : ((p :: rest).take 10).length = 10 := by
            simp [List.length_take]
            omega
          obtain ⟨g, hg⟩ := ofList_ok _ ht
          have hdl : ((p :: rest).drop 10).length = rest.length + 1 - 10 := by
            simp [List.length_drop]
          obtain ⟨gs, hgs, hglen⟩ := ih ((p :: rest).drop 10)
            (by rw [hdl]; omega) (by rw [hdl]; omega)
          refine ⟨g :: gs, ?_, ?_⟩
          · unfold chunks10
            rw [hg, hgs]
            rfl
          · rw [hdl] at hglen
            simp only [List.length_cons]
            omega

theorem chunks10_error (fuel : ℕ) :
    ∀ (params : List ℚ), params.length ≤ fuel → params ≠ [] →
      params.length % 10 ≠ 0 → ∃ e, chunks10 params = .error e := by
  induction fuel with
  | zero =>
      intro params hlen hne _
      exact absurd (List.length_eq_zero.mp (Nat.le_zero.mp hlen)) hne
  | succ f ih =>
      intro params hlen hne hmod
      match params with
      | [] => exact absurd rfl hne
      | p :: rest =>
          simp only [List.length_cons] at hlen hmod
          by_cases h10 : rest.length + 1 < 10
          · have ht : ((p :: rest).take 10).length ≠ 10 := by
              simp [List.length_take]
              omega
            obtain ⟨e, he⟩ := ofList_error _ ht
            refine ⟨e, ?_⟩
            unfold chunks10
            rw [he]
            rfl
          · push_neg at h10
            have ht : ((p :: rest).take 10).length = 10 := by
              simp [List.length_take]
              omega
            obtain ⟨g, hg⟩ := ofList_ok _ ht
            have hdl : ((p :: rest).drop 10).length = rest.length + 1 - 10 := by
              simp [List.length_drop]
            have hdne : (p :: rest).drop 10 ≠ [] := by
              intro hnil
              rw [hnil] at hdl
              simp at hdl
              omega
            obtain ⟨e, he⟩ := ih ((p :: rest).drop 10)
              (by rw [hdl]; omega) hdne (by rw [hdl]; omega)
            refine ⟨e, ?_⟩
            unfold chunks10
            rw [hg, he]
            rfl

/-! ## Objective lemmas -/

theorem difference_err (s : ModelAndImageDifference) (params : List ℚ)
    (e : String) (hch : chunks10 params = .error e) :
    difference_with_image s params = .error e := by
  unfold difference_with_image
  rw [hch]
  rfl

theorem gradient_err (s : ModelAndImageDifference) (params : List ℚ)
    (e : String) (hch : chunks10 params = .error e) :
    gradient s params = .error e := by
  unfold gradient
  rw [hch]
  rfl

theorem difference_ok (s : ModelAndImageDifference) (params : List ℚ)
    (gs : List Gaussian) (hgs : chunks10 params = .ok gs)
    (hc : GoodCache s.sh s.lastGaussians) :
    difference_with_image s params =
      .ok (sumVoxels s.sh
            (fun z y x => (modelSum s.sh gs z y x - s.data z y x) ^ 2),
          { s with lastGaussians :=
              (drawGaussians s.sh s.lastGaussians gs zeroImage).2 }) := by
  obtain ⟨h1, -⟩ := drawGaussians_spec s.sh s.lastGaussians hc gs zeroImage
  have step : difference_with_image s params =
      .ok (sumVoxels s.sh (fun z y x =>
            ((drawGaussians s.sh s.lastGaussians gs zeroImage).1 z y x
              - s.data z y x) ^ 2),
          { s with lastGaussians :=
              (drawGaussians s.sh s.lastGaussians gs zeroImage).2 }) := by
    unfold difference_with_image
    rw [hgs]
    rfl
  rw [step, h1]
  simp [zeroImage]

theorem difference_value_pure (s : ModelAndImageDifference) (params : List ℚ)
    (hc : GoodCache s.sh s.lastGaussians) :
    (difference_with_image s params).map Prod.fst =
      pureDifference s.sh s.data params := by
  cases hch : chunks10 params with
  | error e =>
      rw [difference_err s params e hch]
      unfold pureDifference
      rw [hch]
      rfl
  | ok gs =>
      rw [difference_ok s params gs hch hc]
      unfold pureDifference
      rw [hch]
      rfl

theorem runCalls_diff (s : ModelAndImageDifference) (ps : List ℚ)
    (rest : List Call) :
    runCalls s (.diff ps :: rest) =
      match difference_with_image s ps with
      | .ok r => runCalls r.2 rest
      | .error _ => runCalls s rest := rfl

theorem runCalls_grad (s : ModelAndImageDifference) (ps : List ℚ)
    (rest : List Call) :
    runCalls s (.grad ps :: rest) =
      match gradient s ps with
      | .ok r => runCalls r.2 rest
      | .error _ => runCalls s rest := rfl

theorem gradient_ok (s : ModelAndImageDifference) (params : List ℚ)
    (gs : List Gaussian) (hgs : chunks10 params = .ok gs)
    (hc : GoodCache s.sh s.lastGaussians) :
    gradient s params =
      .ok (gs.flatMap (fun g => (List.finRange 10).map (fun k =>
            sumVoxels s.sh (fun z y x => gradRender g s.sh k z y x *
              (2 * (modelSum s.sh gs z y x - s.data z y x))))),
          { s with lastGaussians :=
              (drawGaussians s.sh s.lastGaussians gs zeroImage).2 }) := by
  obtain ⟨h1, -⟩ := drawGaussians_spec s.sh s.lastGaussians hc gs zeroImage
  have step : gradient s params =
      .ok (gs.flatMap (fun g => (List.finRange 10).map (fun k =>
            sumVoxels s.sh (fun z y x => gradRender g s.sh k z y x *
              (2 * ((drawGaussians s.sh s.lastGaussians gs zeroImage).1 z y x
                - s.data z y x))))),
          { s with lastGaussians :=
              (drawGaussians s.sh s.lastGaussians gs zeroImage).2 }) := by
    unfold gradient
    rw [hgs]
    rfl
  rw [step, h1]
  simp [zeroImage]

theorem runCalls_good (hist : List Call) : ∀ (s : ModelAndImageDifference),
    GoodCache s.sh s.lastGaussians →
    (runCalls s hist).sh = s.sh ∧ (runCalls s hist).data = s.data ∧
      GoodCache (runCalls s hist).sh (runCalls s hist).lastGaussians := by
  induction hist with
  | nil => exact fun s hc => ⟨rfl, rfl, hc⟩
  | cons c rest ih =>
      intro s hc
      cases c with
      | diff ps =>
          cases hch : chunks10 ps with
          | error e =>
              have hstep : runCalls s (.diff ps :: rest) = runCalls s rest := by
                rw [runCalls_diff, difference_err s ps e hch]
              rw [hstep]
              exact ih s hc
          | ok gs =>
              have hstep : runCalls s (.diff ps :: rest) =
                  runCalls { s with lastGaussians :=
                    (drawGaussians s.sh s.lastGaussians gs zeroImage).2 } rest := by
                rw [runCalls_diff, difference_ok s ps gs hch hc]
              rw [hstep]
              exact ih _ ((drawGaussians_spec s.sh s.lastGaussians hc gs zeroImage).2)
      | grad ps =>
          cases hch : chunks10 ps with
          | error e =>
              have hstep : runCalls s (.grad ps :: rest) = runCalls s rest := by
                rw [runCalls_grad, gradient_err s ps e hch]
              rw [hstep]
              exact ih s hc
          | ok gs =>
              have hstep : runCalls s (.grad ps :: rest) =
                  runCalls { s with lastGaussians :=
                    (drawGaussians s.sh s.lastGaussians gs zeroImage).2 } rest := by
                rw [runCalls_grad, gradient_ok s ps gs hch hc]
              rw [hstep]
              exact ih _ ((drawGaussians_spec s.sh s.lastGaussians hc gs zeroImage).2)

/-! ## Claim theorems for the residual model -/

/-- C1: for every parameter vector whose length is a multiple of 10,
`difference_with_image` returns the sum over all voxels of the squared
difference between the rendered model sum (every blob of consecutive
ten-parameter slices drawn additively into the zeroed scratch buffer) and the
target image. -/
theorem C1_difference_is_ssd (s : ModelAndImageDifference) (params : List ℚ)
    (n : ℕ) (hlen : params.length = 10 * n)
    (hc : GoodCache s.sh s.lastGaussians) :
    ∃ gs s2, chunks10 params = .ok gs ∧
      difference_with_image s params =
        .ok (sumVoxels s.sh
          (fun z y x => (modelSum s.sh gs z y x - s.data z y x) ^ 2), s2) := by
  obtain ⟨gs, hgs, -⟩ := chunks10_ok params.length params le_rfl (by omega)
  exact ⟨gs, _, hgs, difference_ok s params gs hgs hc⟩

/-- Witness for C1 at a concrete ten-parameter vector and a fresh model. -/
theorem C1_difference_is_ssd_witness :
    (([1, 2, 3, 4, 5, 6, 7, 0, 0, 0] : List ℚ).length = 10 * 1) ∧
    GoodCache (initModel ⟨1, 1, 1⟩ zeroImage).sh
      (initModel ⟨1, 1, 1⟩ zeroImage).lastGaussians ∧
    (∃ gs s2, chunks10 [1, 2, 3, 4, 5, 6, 7, 0, 0, 0] = .ok gs ∧
      difference_with_image (initModel ⟨1, 1, 1⟩ zeroImage)
          [1, 2, 3, 4, 5, 6, 7, 0, 0, 0] =
        .ok (sumVoxels (initModel ⟨1, 1, 1⟩ zeroImage).sh
          (fun z y x => (modelSum (initModel ⟨1, 1, 1⟩ zeroImage).sh gs z y x -
            (initModel ⟨1, 1, 1⟩ zeroImage).data z y x) ^ 2), s2)) :=
  ⟨rfl, by simp [GoodCache, initModel],
   C1_difference_is_ssd (initModel ⟨1, 1, 1⟩ zeroImage)
     [1, 2, 3, 4, 5, 6, 7, 0, 0, 0] 1 rfl (by simp [GoodCache, initModel])⟩

/-- C7: `difference_with_image` is observably a pure function of `params`:
after any two call histories on the same instance, two calls with equal
parameter vectors return equal values — the per-blob render cache (keyed by
the exact ten-parameter tuples of the previous call) never changes the
numeric result. -/
theorem C7_difference_observably_pure (sh : Shape) (data : Image)
    (hist1 hist2 : List Call) (params : List ℚ) :
    (difference_with_image (runCalls (initModel sh data) hist1) params).map
        Prod.fst =
      (difference_with_image (runCalls (initModel sh data) hist2) params).map
        Prod.fst := by
  have hinit : GoodCache (initModel sh data).sh
      (initModel sh data).lastGaussians := by
    intro e he
    simp [initModel] at he
  obtain ⟨a1, b1, c1⟩ := runCalls_good hist1 (initModel sh data) hinit
  obtain ⟨a2, b2, c2⟩ := runCalls_good hist2 (initModel sh data) hinit
  rw [difference_value_pure _ params c1, difference_value_pure _ params c2,
    a1, b1, a2, b2]

theorem sumVoxels_mul_left (sh : Shape) (c : ℝ) (f : Image) :
    sumVoxels sh (fun z y x => c * f z y x) = c * sumVoxels sh f := by
  unfold sumVoxels
  simp [Finset.mul_sum]

theorem sumVoxels_congr (sh : Shape) (f g : Image)
    (h : ∀ z y x, f z y x = g z y x) : sumVoxels sh f = sumVoxels sh g := by
  unfold sumVoxels
  refine Finset.sum_congr rfl fun z _ => Finset.sum_congr rfl fun y _ =>
    Finset.sum_congr rfl fun x _ => h _ _ _

theorem flatMap_block_getElem {α β : Type} (f : α → List β) (B : ℕ)
    (hf : ∀ a, (f a).length = B) (l : List α) :
    ∀ (j k : ℕ) (a : α), l[j]? = some a → k < B →
      (l.flatMap f)[B * j + k]? = (f a)[k]? := by
  induction l with
  | nil =>
      intro j k a hj _
      simp at hj
  | cons b t ih =>
      intro j k a hj hk
      cases j with
      | zero =>
          have hb : b = a := by simpa using hj
          subst hb
          rw [List.flatMap_cons, List.getElem?_append]
          rw [if_pos (by rw [hf b]; omega)]
          simp only [Nat.mul_zero, Nat.zero_add]
      | succ j2 =>
          have hj2 : t[j2]? = some a := by simpa using hj
          rw [List.flatMap_cons,
            List.getElem?_append_right (by rw [hf b, Nat.mul_succ]; omega)]
          have hidx : B * (j2 + 1) + k - (f b).length = B * j2 + k := by
            rw [hf b, Nat.mul_succ]
            omega
          rw [hidx]
          exact ih j2 k a hj2 hk

theorem finRange_map_getElem {β : Type*} {n : ℕ} (h : Fin n → β) (k : ℕ)
    (hk : k < n) : ((List.finRange n).map h)[k]? = some (h ⟨k, hk⟩) := by
  rw [List.getElem?_map,
    List.getElem?_eq_getElem (by rw [List.length_finRange]; exact hk),
    List.getElem_finRange]
  rfl

theorem flatMap_block_length {α β : Type} (f : α → List β) (B : ℕ)
    (hf : ∀ a, (f a).length = B) (l : List α) :
    (l.flatMap f).length = B * l.length := by
  induction l with
  | nil => simp
  | cons b t ih =>
      rw [List.flatMap_cons, List.length_append, hf b, ih, List.length_cons,
        Nat.mul_succ]
      omega

/-- C2: for a parameter vector of length `10·n`, `gradient` returns a vector
of the same length whose entry for parameter `k` of blob `j` is
`2·Σ(r · ∂model/∂param)` — twice the voxel-wise dot product of the residual
`r = model_sum − target` with that parameter's derivative render — in `params`
order, and the residual it is built from is exactly the one whose square sum
`difference_with_image` returns for the same `params`. -/
theorem C2_gradient_formula (s : ModelAndImageDifference) (params : List ℚ)
    (n : ℕ) (hlen : params.length = 10 * n)
    (hc : GoodCache s.sh s.lastGaussians) :
    ∃ gs grads s2, chunks10 params = .ok gs ∧
      gradient s params = .ok (grads, s2) ∧
      grads.length = params.length ∧
      (∀ (j k : ℕ) (g : Gaussian), gs[j]? = some g → ∀ (hk : k < 10),
        grads[10 * j + k]? = some (2 * sumVoxels s.sh (fun z y x =>
          (modelSum s.sh gs z y x - s.data z y x) *
            gradRender g s.sh ⟨k, hk⟩ z y x))) ∧
      difference_with_image s params =
        .ok (sumVoxels s.sh
            (fun z y x => (modelSum s.sh gs z y x - s.data z y x) ^ 2),
          { s with lastGaussians :=
              (drawGaussians s.sh s.lastGaussians gs zeroImage).2 }) := by
  obtain ⟨gs, hgs, hglen⟩ := chunks10_ok params.length params le_rfl (by omega)
  have hf10 : ∀ g : Gaussian, ((List.finRange 10).map (fun k =>
      sumVoxels s.sh (fun z y x => gradRender g s.sh k z y x *
        (2 * (modelSum s.sh gs z y x - s.data z y x))))).length = 10 := by
    intro g
    simp
  refine ⟨gs, _, _, hgs, gradient_ok s params gs hgs hc, ?_, ?_,
    difference_ok s params gs hgs hc⟩
  · rw [flatMap_block_length _ 10 hf10 gs]
    omega
  · intro j k g hj hk
    rw [flatMap_block_getElem _ 10 hf10 gs j k g hj hk,
      finRange_map_getElem _ k hk]
    congr 1
    rw [← sumVoxels_mul_left s.sh 2 (fun z y x =>
      (modelSum s.sh gs z y x - s.data z y x) * gradRender g s.sh ⟨k, hk⟩ z y x)]
    exact sumVoxels_congr s.sh _ _ (fun z y x => by ring)

/-- Witness for C2 at a concrete ten-parameter vector and a fresh model. -/
theorem C2_gradient_formula_witness :
    (([2, 1, 1, 1, 1, 1, 1, 0, 0, 0] : List ℚ).length = 10 * 1) ∧
    GoodCache (initModel ⟨2, 2, 2⟩ zeroImage).sh
      (initModel ⟨2, 2, 2⟩ zeroImage).lastGaussians ∧
    (∃ gs grads s2, chunks10 [2, 1, 1, 1, 1, 1, 1, 0, 0, 0] = .ok gs ∧
      gradient (initModel ⟨2, 2, 2⟩ zeroImage) [2, 1, 1, 1, 1, 1, 1, 0, 0, 0] =
        .ok (grads, s2) ∧
      grads.length = ([2, 1, 1, 1, 1, 1, 1, 0, 0, 0] : List ℚ).length ∧
      (∀ (j k : ℕ) (g : Gaussian), gs[j]? = some g → ∀ (hk : k < 10),
        grads[10 * j + k]? = some (2 * sumVoxels (initModel ⟨2, 2, 2⟩ zeroImage).sh
          (fun z y x =>
            (modelSum (initModel ⟨2, 2, 2⟩ zeroImage).sh gs z y x -
              (initModel ⟨2, 2, 2⟩ zeroImage).data z y x) *
            gradRender g (initModel ⟨2, 2, 2⟩ zeroImage).sh ⟨k, hk⟩ z y x))) ∧
      difference_with_image (initModel ⟨2, 2, 2⟩ zeroImage)
          [2, 1, 1, 1, 1, 1, 1, 0, 0, 0] =
        .ok (sumVoxels (initModel ⟨2, 2, 2⟩ zeroImage).sh
            (fun z y x => (modelSum (initModel ⟨2, 2, 2⟩ zeroImage).sh gs z y x -
              (initModel ⟨2, 2, 2⟩ zeroImage).data z y x) ^ 2),
          { initModel ⟨2, 2, 2⟩ zeroImage with lastGaussians :=
              (drawGaussians (initModel ⟨2, 2, 2⟩ zeroImage).sh
                (initModel ⟨2, 2, 2⟩ zeroImage).lastGaussians gs zeroImage).2 })) :=
  ⟨rfl, by simp [GoodCache, initModel],
   C2_gradient_formula (initModel ⟨2, 2, 2⟩ zeroImage)
     [2, 1, 1, 1, 1, 1, 1, 0, 0, 0] 1 rfl (by simp [GoodCache, initModel])⟩

/-- C9: a positive parameter-vector length that is not an exact multiple of 10
makes both `difference_with_image` and `gradient` raise (the propagated
`TypeError` of `Gaussian(*short_slice)`) rather than return a value. -/
theorem C9_malformed_params_raise (s : ModelAndImageDifference)
    (params : List ℚ) (h1 : 0 < params.length)
    (h2 : params.length % 10 ≠ 0) :
    (∃ e, difference_with_image s params = .error e) ∧
    (∃ e, gradient s params = .error e) := by
  have hne : params ≠ [] := by
    intro hnil
    rw [hnil] at h1
    simp at h1
  obtain ⟨e, he⟩ := chunks10_error params.length params le_rfl hne h2
  exact ⟨⟨e, difference_err s params e he⟩, ⟨e, gradient_err s params e he⟩⟩

/-- Witness for C9 at a concrete three-parameter vector. -/
theorem C9_malformed_params_raise_witness :
    (0 < ([1, 2, 3] : List ℚ).length) ∧ (([1, 2, 3] : List ℚ).length % 10 ≠ 0) ∧
    ((∃ e, difference_with_image (initModel ⟨1, 1, 1⟩ zeroImage) [1, 2, 3] =
        .error e) ∧
     (∃ e, gradient (initModel ⟨1, 1, 1⟩ zeroImage) [1, 2, 3] = .error e)) :=
  ⟨by simp, by simp,
   C9_malformed_params_raise (initModel ⟨1, 1, 1⟩ zeroImage) [1, 2, 3]
     (by simp) (by simp)⟩

/-! ## Orchestrator lemmas -/

theorem clusterFit_eq (minimize : Minimizer) (smooth : Image → Image)
    (c : Cluster) (cr : Crop) :
    clusterFit minimize smooth c cr =
      if (clusterMinResult minimize smooth c cr).success then
        chunks10 (clusterMinResult minimize smooth c cr).x
      else
        .error ("Minimization failed: " ++
          (clusterMinResult minimize smooth c cr).message) := rfl

theorem writeSlots_length : ∀ (tags : List ℕ) (fitted : List Gaussian)
    (slots : List (Option Gaussian)),
    (writeSlots slots tags fitted).length = slots.length
  | [], fitted, slots => by cases fitted <;> rfl
  | _ :: _, [], _ => rfl
  | t :: ts, g :: gs, slots => by
      show (writeSlots (slots.set t (some g)) ts gs).length = slots.length
      rw [writeSlots_length ts gs (slots.set t (some g)), List.length_set]

theorem writeSlots_getElem_notMem : ∀ (tags : List ℕ) (fitted : List Gaussian)
    (slots : List (Option Gaussian)) (i : ℕ), i ∉ tags →
    (writeSlots slots tags fitted)[i]? = slots[i]?
  | [], fitted, slots, i, _ => by cases fitted <;> rfl
  | _ :: _, [], _, _, _ => rfl
  | t :: ts, g :: gs, slots, i, h => by
      have hts : i ∉ ts := fun hh => h (List.mem_cons_of_mem _ hh)
      have hit : i ≠ t := fun hh => h (hh ▸ List.mem_cons_self t ts)
      show (writeSlots (slots.set t (some g)) ts gs)[i]? = slots[i]?
      rw [writeSlots_getElem_notMem ts gs (slots.set t (some g)) i hts]
      exact List.getElem?_set_ne (Ne.symm hit)

theorem writeSlots_getElem_tag : ∀ (tags : List ℕ) (fitted : List Gaussian)
    (slots : List (Option Gaussian)) (j t : ℕ) (g : Gaussian),
    tags.Nodup → tags[j]? = some t → fitted[j]? = some g →
    t < slots.length →
    (writeSlots slots tags fitted)[t]? = some (some g)
  | [], _, _, j, t, g, _, hj, _, _ => by simp at hj
  | _ :: _, [], _, j, t, g, _, _, hg, _ => by simp at hg
  | t0 :: ts, g0 :: gs, slots, 0, t, g, hnd, hj, hg, hlt => by
      have ht : t0 = t := by simpa using hj
      have hgg : g0 = g := by simpa using hg
      subst ht
      subst hgg
      show (writeSlots (slots.set t0 (some g0)) ts gs)[t0]? = some (some g0)
      have hnotin : t0 ∉ ts := (List.nodup_cons.mp hnd).1
      rw [writeSlots_getElem_notMem ts gs (slots.set t0 (some g0)) t0 hnotin]
      exact List.getElem?_set_self hlt
  | t0 :: ts, g0 :: gs, slots, j + 1, t, g, hnd, hj, hg, hlt => by
      have hj2 : ts[j]? = some t := by simpa using hj
      have hg2 : gs[j]? = some g := by simpa using hg
      show (writeSlots (slots.set t0 (some g0)) ts gs)[t]? = some (some g)
      exact writeSlots_getElem_tag ts gs (slots.set t0 (some g0)) j t g
        (List.nodup_cons.mp hnd).2 hj2 hg2 (by rw [List.length_set]; exact hlt)

theorem processCluster_eq (minimize : Minimizer) (smooth : Image → Image)
    (c : Cluster) (acc : List (Option Gaussian) × List String) :
    processCluster minimize smooth acc c =
      ((match clusterOutcome minimize smooth c with
        | none => acc.1
        | some bs => writeSlots acc.1 c.tags bs),
       acc.2 ++ clusterLog minimize smooth c) := by
  unfold processCluster clusterOutcome clusterLog
  cases hcrop : c.crop with
  | none => simp
  | some cr =>
      cases hfit : clusterFit minimize smooth c cr with
      | error e => simp only [hfit]
      | ok fitted => simp only [hfit]; simp

theorem runSlots_cons (minimize : Minimizer) (smooth : Image → Image)
    (c : Cluster) (rest : List Cluster) (slots : List (Option Gaussian)) :
    runSlots minimize smooth (c :: rest) slots =
      runSlots minimize smooth rest
        (match clusterOutcome minimize smooth c with
         | none => slots
         | some bs => writeSlots slots c.tags bs) := rfl

theorem watershed_foldl_eq (minimize : Minimizer) (smooth : Image → Image) :
    ∀ (L : List Cluster) (acc : List (Option Gaussian) × List String),
    L.foldl (processCluster minimize smooth) acc =
      (runSlots minimize smooth L acc.1, acc.2 ++ runLogs minimize smooth L) := by
  intro L
  induction L with
  | nil =>
      intro acc
      simp [runSlots, runLogs]
  | cons c t ih =>
      intro acc
      rw [List.foldl_cons, processCluster_eq, ih, runSlots_cons]
      simp [runLogs, List.flatMap_cons, List.append_assoc]

theorem watershed_run (minimize : Minimizer) (smooth : Image → Image)
    (nStacks : ℕ) (clusters : List Cluster) :
    perform_gaussian_mixture_fit_from_watershed minimize smooth nStacks clusters =
      (runSlots minimize smooth clusters (List.replicate nStacks none),
       runLogs minimize smooth clusters) := by
  unfold perform_gaussian_mixture_fit_from_watershed
  rw [watershed_foldl_eq]
  simp

theorem runSlots_append (minimize : Minimizer) (smooth : Image → Image) :
    ∀ (L1 L2 : List Cluster) (slots : List (Option Gaussian)),
    runSlots minimize smooth (L1 ++ L2) slots =
      runSlots minimize smooth L2 (runSlots minimize smooth L1 slots) := by
  intro L1
  induction L1 with
  | nil => intro L2 slots; rfl
  | cons c t ih =>
      intro L2 slots
      rw [List.cons_append, runSlots_cons, ih, runSlots_cons]

theorem runSlots_length (minimize : Minimizer) (smooth : Image → Image) :
    ∀ (L : List Cluster) (slots : List (Option Gaussian)),
    (runSlots minimize smooth L slots).length = slots.length := by
  intro L
  induction L with
  | nil => intro slots; rfl
  | cons c t ih =>
      intro slots
      rw [runSlots_cons]
      cases houtc : clusterOutcome minimize smooth c with
      | none => rw [ih]
      | some bs => rw [ih, writeSlots_length]

theorem runSlots_getElem_notMem (minimize : Minimizer) (smooth : Image → Image) :
    ∀ (L : List Cluster) (i : ℕ), (∀ c ∈ L, i ∉ c.tags) →
    ∀ (slots : List (Option Gaussian)),
      (runSlots minimize smooth L slots)[i]? = slots[i]? := by
  intro L
  induction L with
  | nil => intro i _ slots; rfl
  | cons c t ih =>
      intro i h slots
      rw [runSlots_cons]
      cases houtc : clusterOutcome minimize smooth c with
      | none => exact ih i (fun c' hc' => h c' (List.mem_cons_of_mem _ hc')) slots
      | some bs =>
          rw [ih i (fun c' hc' => h c' (List.mem_cons_of_mem _ hc'))]
          exact writeSlots_getElem_notMem c.tags bs slots i
            (h c (List.mem_cons_self c t))

theorem runSlots_getElem_skip (minimize : Minimizer) (smooth : Image → Image) :
    ∀ (L : List Cluster) (i : ℕ),
    (∀ c ∈ L, ∀ bs, clusterOutcome minimize smooth c = some bs → i ∉ c.tags) →
    ∀ (slots : List (Option Gaussian)),
      (runSlots minimize smooth L slots)[i]? = slots[i]? := by
  intro L
  induction L with
  | nil => intro i _ slots; rfl
  | cons c t ih =>
      intro i h slots
      rw [runSlots_cons]
      cases houtc : clusterOutcome minimize smooth c with
      | none => exact ih i (fun c' hc' => h c' (List.mem_cons_of_mem _ hc')) slots
      | some bs =>
          rw [ih i (fun c' hc' => h c' (List.mem_cons_of_mem _ hc'))]
          exact writeSlots_getElem_notMem c.tags bs slots i
            (h c (List.mem_cons_self c t) bs houtc)

theorem chunks10_cons_inv (p : ℚ) (rest : List ℚ) (gs : List Gaussian)
    (h : chunks10 (p :: rest) = .ok gs) :
    ∃ g0 gs0, Gaussian.ofList ((p :: rest).take 10) = .ok g0 ∧
      chunks10 ((p :: rest).drop 10) = .ok gs0 ∧ gs = g0 :: gs0 := by
  unfold chunks10 at h
  cases h1 : Gaussian.ofList ((p :: rest).take 10) with
  | error e =>
      rw [h1] at h
      exact Except.noConfusion h
  | ok g0 =>
      rw [h1] at h
      cases h2 : chunks10 ((p :: rest).drop 10) with
      | error e =>
          rw [h2] at h
          exact Except.noConfusion h
      | ok gs0 =>
          rw [h2] at h
          have hok : Except.ok (ε := String) (g0 :: gs0) = Except.ok gs := h
          exact ⟨g0, gs0, rfl, rfl, (Except.ok.inj hok).symm⟩

theorem chunks10_getElem (fuel : ℕ) : ∀ (params : List ℚ) (gs : List Gaussian),
    params.length ≤ fuel → chunks10 params = .ok gs →
    ∀ (j : ℕ) (g : Gaussian), gs[j]? = some g →
      Gaussian.ofList ((params.drop (10 * j)).take 10) = .ok g := by
  induction fuel with
  | zero =>
      intro params gs hlen hch j g hj
      have hp : params = [] := List.length_eq_zero.mp (Nat.le_zero.mp hlen)
      subst hp
      have h0 : chunks10 ([] : List ℚ) = .ok [] := by simp [chunks10]
      rw [h0] at hch
      have hgs : gs = [] := (Except.ok.inj hch).symm
      subst hgs
      simp at hj
  | succ f ih =>
      intro params gs hlen hch j g hj
      match params with
      | [] =>
          have h0 : chunks10 ([] : List ℚ) = .ok [] := by simp [chunks10]
          rw [h0] at hch
          have hgs : gs = [] := (Except.ok.inj hch).symm
          subst hgs
          simp at hj
      | p :: rest =>
          obtain ⟨g0, gs0, h1, h2, h3⟩ := chunks10_cons_inv p rest gs hch
          subst h3
          cases j with
          | zero =>
              have hgv : g0 = g := by simpa using hj
              subst hgv
              simpa using h1
          | succ j2 =>
              have hj2 : gs0[j2]? = some g := by simpa using hj
              have hlen2 : ((p :: rest).drop 10).length ≤ f := by
                simp only [List.length_drop, List.length_cons] at hlen ⊢
                omega
              have hrec := ih ((p :: rest).drop 10) gs0 hlen2 h2 j2 g hj2
              rw [List.drop_drop] at hrec
              have hidx : 10 + 10 * j2 = 10 * (j2 + 1) := by ring
              rw [hidx] at hrec
              exact hrec

/-! ## Claim theorems for the orchestrator -/

/-- C3 counterexample: the claim asserts that a failing cluster's identity
AND the minimizer message are logged; in a concrete run whose minimizer
reports non-success with message `"BOOM"`, the log holds exactly the line
`"Minimization failed for c0"`, in which the minimizer message does not occur
anywhere — only the cluster identity is logged. -/
theorem C3_counterexample :
    (perform_gaussian_mixture_fit_from_watershed
        (fun _ _ => ⟨false, [], "BOOM"⟩) id 1
        [⟨"c0", [0], [], some ⟨0, 0, 0, ⟨1, 1, 1⟩, zeroImage⟩⟩]).2 =
      ["Minimization failed for c0"] ∧
    occursIn "BOOM".toList "Minimization failed for c0".toList = false := by
  constructor
  · rfl
  · decide

/-- C3 (amended): a cluster whose crop is absent or whose minimizer reports
non-success contributes no blobs — given the spec's partition invariant (its
tags belong to no other cluster) all its result slots stay empty — and the
run continues: the whole result-slot sequence equals the run without the
failing cluster; on minimizer non-success a log line naming the cluster
identity is emitted (the minimizer's message is not part of the log line, and
an absent crop is skipped with no log line at all). -/
theorem C3_failure_containment (minimize : Minimizer) (smooth : Image → Image)
    (nStacks : ℕ) (L1 L2 : List Cluster) (c : Cluster)
    (hfail : clusterOutcome minimize smooth c = none)
    (hdisj : ∀ c' ∈ L1 ++ L2, ∀ t ∈ c.tags, t ∉ c'.tags) :
    (∀ t ∈ c.tags, t < nStacks →
      (perform_gaussian_mixture_fit_from_watershed minimize smooth nStacks
        (L1 ++ c :: L2)).1[t]? = some none) ∧
    ((perform_gaussian_mixture_fit_from_watershed minimize smooth nStacks
        (L1 ++ c :: L2)).1 =
      (perform_gaussian_mixture_fit_from_watershed minimize smooth nStacks
        (L1 ++ L2)).1) ∧
    (∀ cr, c.crop = some cr → ∀ e, clusterFit minimize smooth c cr = .error e →
      ("Minimization failed for " ++ c.name) ∈
        (perform_gaussian_mixture_fit_from_watershed minimize smooth nStacks
          (L1 ++ c :: L2)).2) := by
  refine ⟨?_, ?_, ?_⟩
  · intro t ht htlt
    simp only [watershed_run]
    have hskip : ∀ c' ∈ L1 ++ c :: L2, ∀ bs,
        clusterOutcome minimize smooth c' = some bs → t ∉ c'.tags := by
      intro c' hc' bs hbs
      rcases List.mem_append.mp hc' with h1 | h2
      · exact hdisj c' (List.mem_append.mpr (Or.inl h1)) t ht
      · rcases List.mem_cons.mp h2 with h3 | h4
        · subst h3
          rw [hfail] at hbs
          exact absurd hbs (by simp)
        · exact hdisj c' (List.mem_append.mpr (Or.inr h4)) t ht
    rw [runSlots_getElem_skip minimize smooth (L1 ++ c :: L2) t hskip,
      List.getElem?_replicate, if_pos htlt]
  · simp only [watershed_run]
    rw [runSlots_append, runSlots_append, runSlots_cons, hfail]
  · intro cr hcr e hfit
    simp only [watershed_run]
    unfold runLogs
    refine List.mem_flatMap.mpr ⟨c, ?_, ?_⟩
    · exact List.mem_append.mpr (Or.inr (List.mem_cons_self c L2))
    · unfold clusterLog
      rw [hcr]
      show ("Minimization failed for " ++ c.name) ∈
        (match clusterFit minimize smooth c cr with
         | Except.error _ => ["Minimization failed for " ++ c.name]
         | Except.ok _ => [])
      rw [hfit]
      exact List.mem_singleton.mpr rfl

/-- Witness for the amended C3 at a concrete failing cluster. -/
theorem C3_failure_containment_witness :
    (clusterOutcome (fun _ _ => ⟨false, [], "BOOM"⟩) id
      ⟨"c0", [0], [], some ⟨0, 0, 0, ⟨1, 1, 1⟩, zeroImage⟩⟩ = none) ∧
    ((∀ t ∈ ([0] : List ℕ), t < 1 →
      (perform_gaussian_mixture_fit_from_watershed
        (fun _ _ => ⟨false, [], "BOOM"⟩) id 1
        ([] ++ ⟨"c0", [0], [], some ⟨0, 0, 0, ⟨1, 1, 1⟩, zeroImage⟩⟩ :: [])).1[t]? =
          some none) ∧
    ((perform_gaussian_mixture_fit_from_watershed
        (fun _ _ => ⟨false, [], "BOOM"⟩) id 1
        ([] ++ ⟨"c0", [0], [], some ⟨0, 0, 0, ⟨1, 1, 1⟩, zeroImage⟩⟩ :: [])).1 =
      (perform_gaussian_mixture_fit_from_watershed
        (fun _ _ => ⟨false, [], "BOOM"⟩) id 1 ([] ++ [])).1) ∧
    (∀ cr, (⟨"c0", [0], [], some ⟨0, 0, 0, ⟨1, 1, 1⟩, zeroImage⟩⟩ : Cluster).crop =
        some cr →
      ∀ e, clusterFit (fun _ _ => ⟨false, [], "BOOM"⟩) id
        ⟨"c0", [0], [], some ⟨0, 0, 0, ⟨1, 1, 1⟩, zeroImage⟩⟩ cr = .error e →
      ("Minimization failed for " ++
          (⟨"c0", [0], [], some ⟨0, 0, 0, ⟨1, 1, 1⟩, zeroImage⟩⟩ : Cluster).name) ∈
        (perform_gaussian_mixture_fit_from_watershed
          (fun _ _ => ⟨false, [], "BOOM"⟩) id 1
          ([] ++ ⟨"c0", [0], [], some ⟨0, 0, 0, ⟨1, 1, 1⟩, zeroImage⟩⟩ :: [])).2)) :=
  ⟨rfl,
   C3_failure_containment (fun _ _ => ⟨false, [], "BOOM"⟩) id 1 [] []
     ⟨"c0", [0], [], some ⟨0, 0, 0, ⟨1, 1, 1⟩, zeroImage⟩⟩ rfl
     (by intro c' hc'; simp at hc')⟩

theorem ofList_ok_length (l : List ℚ) (g : Gaussian)
    (h : Gaussian.ofList l = .ok g) : l.length = 10 := by
  by_contra hne
  obtain ⟨e, he⟩ := ofList_error l hne
  rw [he] at h
  exact Except.noConfusion h

theorem chunks10_length (fuel : ℕ) : ∀ (params : List ℚ) (gs : List Gaussian),
    params.length ≤ fuel → chunks10 params = .ok gs →
    10 * gs.length = params.length := by
  induction fuel with
  | zero =>
      intro params gs hlen hch
      have hp : params = [] := List.length_eq_zero.mp (Nat.le_zero.mp hlen)
      subst hp
      have h0 : chunks10 ([] : List ℚ) = .ok [] := by simp [chunks10]
      rw [h0] at hch
      have hgs : gs = [] := (Except.ok.inj hch).symm
      subst hgs
      rfl
  | succ f ih =>
      intro params gs hlen hch
      match params with
      | [] =>
          have h0 : chunks10 ([] : List ℚ) = .ok [] := by simp [chunks10]
          rw [h0] at hch
          have hgs : gs = [] := (Except.ok.inj hch).symm
          subst hgs
          rfl
      | p :: rest =>
          obtain ⟨g0, gs0, h1, h2, h3⟩ := chunks10_cons_inv p rest gs hch
          subst h3
          have hge : 10 ≤ rest.length + 1 := by
            have ht := ofList_ok_length _ _ h1
            simp only [List.length_take, List.length_cons] at ht
            omega
          have hrec := ih ((p :: rest).drop 10) gs0
            (by simp only [List.length_drop, List.length_cons] at hlen ⊢; omega) h2
          simp only [List.length_drop, List.length_cons] at hrec
          simp only [List.length_cons]
          omega

/-- C4: the orchestrator returns exactly one slot per input seed tag; for a
cluster whose fit succeeds, the slot of its `j`-th seed tag holds the blob
built from the `j`-th consecutive ten-parameter slice of the minimizer result
(same order as the initial guesses), translated back to global coordinates by
the crop origin offsets; every tag not resolved by a successful cluster fit is
left empty.  Hypotheses: the spec's partition invariant (pairwise-disjoint,
duplicate-free, in-range tags), one guess per tag, and a minimizer that
returns a vector of the initial length (as `scipy.optimize.minimize` does). -/
theorem C4_tag_alignment (minimize : Minimizer) (smooth : Image → Image)
    (nStacks : ℕ) (clusters : List Cluster)
    (hdisj : clusters.Pairwise (fun c1 c2 => ∀ t ∈ c1.tags, t ∉ c2.tags))
    (hnodup : ∀ c ∈ clusters, c.tags.Nodup)
    (hbound : ∀ c ∈ clusters, ∀ t ∈ c.tags, t < nStacks)
    (hglen : ∀ c ∈ clusters, c.guesses.length = c.tags.length)
    (hmin : ∀ f ps, ((minimize f ps).x).length = ps.length) :
    ((perform_gaussian_mixture_fit_from_watershed minimize smooth nStacks
        clusters).1.length = nStacks) ∧
    (∀ c ∈ clusters, ∀ cr, c.crop = some cr →
      (clusterMinResult minimize smooth c cr).success = true →
      ∀ fitted, chunks10 (clusterMinResult minimize smooth c cr).x = .ok fitted →
      fitted.length = c.tags.length ∧
      (∀ (j t : ℕ) (g : Gaussian), c.tags[j]? = some t → fitted[j]? = some g →
        Gaussian.ofList
            ((((clusterMinResult minimize smooth c cr).x).drop (10 * j)).take 10)
          = .ok g ∧
        (perform_gaussian_mixture_fit_from_watershed minimize smooth nStacks
            clusters).1[t]? =
          some (some (g.translated (cr.ox : ℚ) (cr.oy : ℚ) (cr.oz : ℚ))))) ∧
    (∀ t, t < nStacks →
      (∀ c ∈ clusters, ∀ bs, clusterOutcome minimize smooth c = some bs →
        t ∉ c.tags) →
      (perform_gaussian_mixture_fit_from_watershed minimize smooth nStacks
        clusters).1[t]? = some none) := by
  refine ⟨?_, ?_, ?_⟩
  · simp only [watershed_run]
    rw [runSlots_length, List.length_replicate]
  · intro c hc cr hcr hsucc fitted hch
    have hps : ((clusterGuesses c cr).flatMap Gaussian.to_list).length =
        10 * c.tags.length := by
      rw [flatMap_block_length Gaussian.to_list 10 (fun g2 => rfl)]
      unfold clusterGuesses
      rw [List.length_map, hglen c hc]
    have hx : ((clusterMinResult minimize smooth c cr).x).length =
        10 * c.tags.length := (hmin _ _).trans hps
    have hfl : fitted.length = c.tags.length := by
      have h10 := chunks10_length ((clusterMinResult minimize smooth c cr).x).length
        _ _ le_rfl hch
      rw [hx] at h10
      omega
    refine ⟨hfl, ?_⟩
    intro j t g hj hg
    refine ⟨chunks10_getElem ((clusterMinResult minimize smooth c cr).x).length
      _ _ le_rfl hch j g hg, ?_⟩
    have houtc : clusterOutcome minimize smooth c =
        some (fitted.map (fun g =>
          g.translated (cr.ox : ℚ) (cr.oy : ℚ) (cr.oz : ℚ))) := by
      unfold clusterOutcome
      rw [hcr]
      show (match clusterFit minimize smooth c cr with
            | Except.error _ => none
            | Except.ok fitted2 => some (fitted2.map (fun g2 : Gaussian =>
                g2.translated (cr.ox : ℚ) (cr.oy : ℚ) (cr.oz : ℚ)))) = _
      rw [clusterFit_eq, if_pos hsucc, hch]
    have ht_mem : t ∈ c.tags := List.getElem?_mem hj
    obtain ⟨La, Lb, hLL⟩ := List.append_of_mem hc
    subst hLL
    have hnotLb : ∀ c' ∈ Lb, t ∉ c'.tags := by
      rw [List.pairwise_append] at hdisj
      have hcons := hdisj.2.1
      rw [List.pairwise_cons] at hcons
      exact fun c' hc' => hcons.1 c' hc' t ht_mem
    simp only [watershed_run]
    rw [runSlots_append, runSlots_cons, houtc]
    show (runSlots minimize smooth Lb
      (writeSlots (runSlots minimize smooth La (List.replicate nStacks none))
        c.tags (fitted.map (fun g =>
          g.translated (cr.ox : ℚ) (cr.oy : ℚ) (cr.oz : ℚ)))))[t]? = _
    rw [runSlots_getElem_notMem minimize smooth Lb t hnotLb]
    refine writeSlots_getElem_tag c.tags _ _ j t _ (hnodup c hc) hj ?_ ?_
    · rw [List.getElem?_map, hg]
      rfl
    · rw [runSlots_length, List.length_replicate]
      exact hbound c hc t ht_mem
  · intro t htlt hskip
    simp only [watershed_run]
    rw [runSlots_getElem_skip minimize smooth clusters t hskip,
      List.getElem?_replicate, if_pos htlt]

/-- Witness for C4 at a concrete one-cluster run with an identity minimizer. -/
theorem C4_tag_alignment_witness :
    (([⟨"c0", [0], [⟨1, 2, 2, 2, 1, 1, 1, 0, 0, 0⟩],
        some ⟨1, 2, 3, ⟨9, 9, 9⟩, zeroImage⟩⟩] : List Cluster).Pairwise
      (fun c1 c2 => ∀ t ∈ c1.tags, t ∉ c2.tags)) ∧
    (∀ c ∈ ([⟨"c0", [0], [⟨1, 2, 2, 2, 1, 1, 1, 0, 0, 0⟩],
        some ⟨1, 2, 3, ⟨9, 9, 9⟩, zeroImage⟩⟩] : List Cluster), c.tags.Nodup) ∧
    (∀ c ∈ ([⟨"c0", [0], [⟨1, 2, 2, 2, 1, 1, 1, 0, 0, 0⟩],
        some ⟨1, 2, 3, ⟨9, 9, 9⟩, zeroImage⟩⟩] : List Cluster),
      ∀ t ∈ c.tags, t < 1) ∧
    (∀ c ∈ ([⟨"c0", [0], [⟨1, 2, 2, 2, 1, 1, 1, 0, 0, 0⟩],
        some ⟨1, 2, 3, ⟨9, 9, 9⟩, zeroImage⟩⟩] : List Cluster),
      c.guesses.length = c.tags.length) ∧
    (∀ (f : List ℚ → Except String ℝ) (ps : List ℚ),
      (((fun _ ps => ⟨true, ps, "ok"⟩ : Minimizer) f ps).x).length = ps.length) ∧
    (((perform_gaussian_mixture_fit_from_watershed
        (fun _ ps => ⟨true, ps, "ok"⟩) id 1
        [⟨"c0", [0], [⟨1, 2, 2, 2, 1, 1, 1, 0, 0, 0⟩],
          some ⟨1, 2, 3, ⟨9, 9, 9⟩, zeroImage⟩⟩]).1.length = 1) ∧
     (∀ c ∈ ([⟨"c0", [0], [⟨1, 2, 2, 2, 1, 1, 1, 0, 0, 0⟩],
          some ⟨1, 2, 3, ⟨9, 9, 9⟩, zeroImage⟩⟩] : List Cluster),
        ∀ cr, c.crop = some cr →
        (clusterMinResult (fun _ ps => ⟨true, ps, "ok"⟩) id c cr).success = true →
        ∀ fitted, chunks10
            (clusterMinResult (fun _ ps => ⟨true, ps, "ok"⟩) id c cr).x =
          .ok fitted →
        fitted.length = c.tags.length ∧
        (∀ (j t : ℕ) (g : Gaussian), c.tags[j]? = some t → fitted[j]? = some g →
          Gaussian.ofList
              ((((clusterMinResult (fun _ ps => ⟨true, ps, "ok"⟩) id c cr).x).drop
                (10 * j)).take 10) = .ok g ∧
          (perform_gaussian_mixture_fit_from_watershed
              (fun _ ps => ⟨true, ps, "ok"⟩) id 1
              [⟨"c0", [0], [⟨1, 2, 2, 2, 1, 1, 1, 0, 0, 0⟩],
                some ⟨1, 2, 3, ⟨9, 9, 9⟩, zeroImage⟩⟩]).1[t]? =
            some (some (g.translated (cr.ox : ℚ) (cr.oy : ℚ) (cr.oz : ℚ))))) ∧
     (∀ t, t < 1 →
       (∀ c ∈ ([⟨"c0", [0], [⟨1, 2, 2, 2, 1, 1, 1, 0, 0, 0⟩],
            some ⟨1, 2, 3, ⟨9, 9, 9⟩, zeroImage⟩⟩] : List Cluster),
         ∀ bs, clusterOutcome (fun _ ps => ⟨true, ps, "ok"⟩) id c = some bs →
           t ∉ c.tags) →
       (perform_gaussian_mixture_fit_from_watershed
          (fun _ ps => ⟨true, ps, "ok"⟩) id 1
          [⟨"c0", [0], [⟨1, 2, 2, 2, 1, 1, 1, 0, 0, 0⟩],
            some ⟨1, 2, 3, ⟨9, 9, 9⟩, zeroImage⟩⟩]).1[t]? = some none)) :=
  ⟨by simp, by simp, by simp, by simp, fun _ _ => rfl,
   C4_tag_alignment (fun _ ps => ⟨true, ps, "ok"⟩) id 1
     [⟨"c0", [0], [⟨1, 2, 2, 2, 1, 1, 1, 0, 0, 0⟩],
       some ⟨1, 2, 3, ⟨9, 9, 9⟩, zeroImage⟩⟩]
     (by simp) (by simp) (by simp) (by simp) (fun _ _ => rfl)⟩

end GaussianFit
